import Mathlib

/-!
Verification of the command interpretation and authorization pipeline of
gemini-safe-command-extension (src/index.ts): the tokenizer `parseArgs`,
the validator `validateCommand`, and the stream/timeout bookkeeping of
`spawnAsync`, shallowly embedded in Lean.
-/

namespace SafeCmd

/-! ## Tokenizer (src/index.ts, `parseArgs`, lines 243-289)

The scanner state mirrors the four mutable locals of `parseArgs`:
`args`, `current`, `quote`, `escape`. -/

structure ScanState where
  args : List String
  current : String
  quote : Option Char
  escape : Bool
deriving DecidableEq

/-- One iteration of the character loop of `parseArgs` (lines 249-281). -/
def scanStep (st : ScanState) (char : Char) : ScanState :=
  if st.escape then
    { st with current := st.current.push char, escape := false }
  else if char == '\\' then
    { st with escape := true }
  else
    match st.quote with
    | some q =>
      if char == q then { st with quote := none }
      else { st with current := st.current.push char }
    | none =>
      if char == '"' || char == '\'' then
        { st with quote := some char }
      else if char == ' ' || char == '\t' || char == '\n' || char == '\r' then
        if st.current.isEmpty then st
        else { st with args := st.args ++ [st.current], current := "" }
      else { st with current := st.current.push char }

/-- The initial scanner state of `parseArgs`. -/
def scanInit : ScanState := ⟨[], "", none, false⟩

/-- The scanner state after the whole character loop of `parseArgs`. -/
def scanRun (cs : List Char) : ScanState := cs.foldl scanStep scanInit

/-- The trailing flush of `parseArgs` (line 287): push `current` if non-empty. -/
def finishTokens (st : ScanState) : List String :=
  if st.current.isEmpty then st.args else st.args ++ [st.current]

/-- `parseArgs` (lines 243-289): run the scanner over the input, fail when a
quote is still open at end of input, otherwise flush and return the tokens. -/
def parseArgs (commandStr : String) : Except String (List String) :=
  match (scanRun commandStr.data).quote with
  | some q => Except.error ("Syntax error: Unclosed quote " ++ q.toString)
  | none => Except.ok (finishTokens (scanRun commandStr.data))

example : parseArgs "ls -la" = Except.ok ["ls", "-la"] := rfl
example : parseArgs "git commit -m \"fix bug\"" =
    Except.ok ["git", "commit", "-m", "fix bug"] := rfl
example : parseArgs "echo 'hello world'" = Except.ok ["echo", "hello world"] := rfl
example : parseArgs "a\"b\"c" = Except.ok ["abc"] := rfl
example : parseArgs "" = Except.ok [] := rfl
example : parseArgs "echo \"hello" =
    Except.error ("Syntax error: Unclosed quote " ++ "\"") := rfl
example : parseArgs "echo \"\"" = Except.ok ["echo"] := rfl

/-! ## Regular expressions

A small regular-expression core with Brzozowski-derivative matching, used to
embed the JavaScript `RegExp` objects of the default whitelist.  `cls p` is a
character class given by its membership predicate. -/

inductive Regex where
  | emp : Regex
  | eps : Regex
  | cls : (Char → Bool) → Regex
  | cat : Regex → Regex → Regex
  | alt : Regex → Regex → Regex
  | star : Regex → Regex

/-- Does the regex accept the empty word? -/
def nullable : Regex → Bool
  | .emp => false
  | .eps => true
  | .cls _ => false
  | .cat a b => nullable a && nullable b
  | .alt a b => nullable a || nullable b
  | .star _ => true

/-- Brzozowski derivative of a regex by one character. -/
def deriv : Regex → Char → Regex
  | .emp, _ => .emp
  | .eps, _ => .emp
  | .cls p, c => if p c then .eps else .emp
  | .cat a b, c =>
    if nullable a then .alt (.cat (deriv a c) b) (deriv b c)
    else .cat (deriv a c) b
  | .alt a b, c => .alt (deriv a c) (deriv b c)
  | .star r, c => .cat (deriv r c) (.star r)

/-- Whole-word matching: the regex accepts exactly the character list. -/
def regexFull (r : Regex) : List Char → Bool
  | [] => nullable r
  | c :: cs => regexFull (deriv r c) cs

/-- Does the regex accept some prefix (possibly empty, possibly all) of the word? -/
def prefMatch (r : Regex) : List Char → Bool
  | [] => nullable r
  | c :: cs => nullable r || prefMatch (deriv r c) cs

/-- Does the regex accept some suffix (possibly empty, possibly all) of the word? -/
def suffMatch (r : Regex) : List Char → Bool
  | [] => nullable r
  | c :: cs => regexFull r (c :: cs) || suffMatch r cs

/-- Does the regex accept some contiguous segment of the word? -/
def searchMatch (r : Regex) : List Char → Bool
  | [] => nullable r
  | c :: cs => prefMatch r (c :: cs) || searchMatch r cs

/-- A JavaScript regular expression as the whitelist uses them: a core regex,
with flags recording whether the written pattern was anchored with a leading
caret and/or a trailing dollar.  All patterns of the default whitelist anchor
only at the extremities, so this shape covers them exactly. -/
structure JSRegex where
  anchorStart : Bool
  anchorEnd : Bool
  core : Regex

/-- JavaScript `RegExp.prototype.test`: search semantics.  The pattern need
only match somewhere inside the string; its own anchors restrict the match to
a prefix, a suffix, or the whole string. -/
def jsTest (p : JSRegex) (s : String) : Bool :=
  match p.anchorStart, p.anchorEnd with
  | true, true => regexFull p.core s.data
  | true, false => prefMatch p.core s.data
  | false, true => suffMatch p.core s.data
  | false, false => searchMatch p.core s.data

/-! ## Validator (src/index.ts, `validateCommand`, lines 291-331) -/

/-- An entry of `allowedArgs`/`deniedArgs`: a string literal or a RegExp
(the `string | RegExp` union of the TypeScript source). -/
inductive ArgMatcher where
  | lit : String → ArgMatcher
  | pat : JSRegex → ArgMatcher

/-- The per-matcher test of `validateCommand` (lines 300-307 and 314-321):
string matchers compare for equality, RegExp matchers use `.test`. -/
def matcherTest (m : ArgMatcher) (arg : String) : Bool :=
  match m with
  | .lit s => arg == s
  | .pat p => jsTest p arg

/-- The `AllowedCommand` record of src/index.ts (lines 13-17); the optional
fields become `Option` (a present-but-empty list is `some []`, matching the
truthiness of an empty array in JavaScript). -/
structure AllowedCommand where
  command : String
  allowedArgs : Option (List ArgMatcher) := none
  deniedArgs : Option (List ArgMatcher) := none

/-- The allow half of the loop body of `validateCommand` (lines 313-326). -/
def checkArgAllow (cfg : AllowedCommand) (baseCommand arg : String) : Option String :=
  match cfg.allowedArgs with
  | some allowed =>
    if allowed.any (fun m => matcherTest m arg) then none
    else some ("Argument '" ++ arg ++ "' for command '" ++ baseCommand ++ "' is not allowed.")
  | none => none

/-- The loop body of `validateCommand` for one argument (lines 299-326):
the deny check runs first, then the allow check. -/
def checkArg (cfg : AllowedCommand) (baseCommand arg : String) : Option String :=
  match cfg.deniedArgs with
  | some denied =>
    if denied.any (fun m => matcherTest m arg) then
      some ("Argument '" ++ arg ++ "' for command '" ++ baseCommand ++ "' is explicitly denied.")
    else checkArgAllow cfg baseCommand arg
  | none => checkArgAllow cfg baseCommand arg

/-- The argument loop of `validateCommand` (lines 298-327): the first failing
argument produces the error, later arguments are not examined. -/
def checkArgs (cfg : AllowedCommand) (baseCommand : String) : List String → Option String
  | [] => none
  | arg :: rest =>
    match checkArg cfg baseCommand arg with
    | some e => some e
    | none => checkArgs cfg baseCommand rest

/-- `validateCommand` (lines 291-331): look the program up in the rule list;
reject unknown programs; when the rule constrains arguments, run the loop. -/
def validateCommand (cmds : List AllowedCommand) (baseCommand : String)
    (args : List String) : Option String :=
  match cmds.find? (fun c => c.command == baseCommand) with
  | none => some ("Command '" ++ baseCommand ++ "' is not in the allowed whitelist.")
  | some cfg =>
    if cfg.allowedArgs.isSome || cfg.deniedArgs.isSome then
      checkArgs cfg baseCommand args
    else none

/-! ## The compiled-in default whitelist (src/index.ts, lines 20-104) -/

/-- One-or-more repetition, `r+`. -/
def rplus (r : Regex) : Regex := .cat r (.star r)

/-- JavaScript `\w`: ASCII letters, digits and underscore. -/
def wordChar (c : Char) : Bool := c.isAlphanum || c == '_'

/-- The character class `["\w@/.-]` of the package-name patterns. -/
def pkgChar (c : Char) : Bool :=
  c == '"' || wordChar c || c == '@' || c == '/' || c == '.' || c == '-'

/-- The pattern `/^["\w@/.-]+$/` (source lines 51, 63, 75, 91). -/
def pkgPattern : JSRegex := ⟨true, true, rplus (.cls pkgChar)⟩

/-- The pattern written `^-` between slashes in the source (lines 52, 64, 76, 92). -/
def dashPattern : JSRegex := ⟨true, false, .cls (fun c => c == '-')⟩

/-- The pattern `/^'[^']*'$/` (source line 93). -/
def sQuotedPattern : JSRegex :=
  ⟨true, true,
    .cat (.cls (fun c => c == '\''))
      (.cat (.star (.cls (fun c => !(c == '\'')))) (.cls (fun c => c == '\'')))⟩

/-- The pattern `/^"[^"]*"$/` (source line 94). -/
def dQuotedPattern : JSRegex :=
  ⟨true, true,
    .cat (.cls (fun c => c == '"'))
      (.cat (.star (.cls (fun c => !(c == '"')))) (.cls (fun c => c == '"')))⟩

/-- The `npm` rule (source lines 43-55). -/
def npmRule : AllowedCommand :=
  { command := "npm"
    allowedArgs := some
      (["install", "i", "ci",
        "run", "test", "start", "build", "dev", "lint", "format",
        "init", "create",
        "list", "ls",
        "view", "search", "info", "audit", "fund", "doctor",
        "version", "v"].map ArgMatcher.lit
        ++ [ArgMatcher.pat pkgPattern, ArgMatcher.pat dashPattern])
    deniedArgs := some
      (["publish", "unpublish", "login", "logout", "adduser", "owner", "team",
        "token", "whoami", "eval", "exec"].map ArgMatcher.lit) }

/-- The `yarn` rule (source lines 56-67). -/
def yarnRule : AllowedCommand :=
  { command := "yarn"
    allowedArgs := some
      (["install", "add", "remove",
        "run", "test", "start", "build", "dev", "lint", "format",
        "init", "create",
        "list", "info", "audit", "why",
        "version", "-v", "--version"].map ArgMatcher.lit
        ++ [ArgMatcher.pat pkgPattern, ArgMatcher.pat dashPattern])
    deniedArgs := some
      (["publish", "login", "logout", "owner", "team", "whoami", "exec",
        "node"].map ArgMatcher.lit) }

/-- The `pnpm` rule (source lines 68-79). -/
def pnpmRule : AllowedCommand :=
  { command := "pnpm"
    allowedArgs := some
      (["install", "i", "add", "remove",
        "run", "test", "start", "build", "dev", "lint", "format",
        "init", "create",
        "list", "ls", "info", "audit", "why", "store",
        "version", "-v", "--version"].map ArgMatcher.lit
        ++ [ArgMatcher.pat pkgPattern, ArgMatcher.pat dashPattern])
    deniedArgs := some
      (["publish", "login", "logout", "server", "exec", "dlx"].map ArgMatcher.lit) }

/-- The `git` rule (source lines 85-95). -/
def gitRule : AllowedCommand :=
  { command := "git"
    allowedArgs := some
      (["status", "log", "diff", "show", "branch", "tag",
        "checkout", "switch", "add", "commit", "push", "pull", "fetch",
        "clone", "init", "remote", "config",
        "stash", "merge", "rebase", "reset", "restore",
        "clean", "blame", "grep"].map ArgMatcher.lit
        ++ [ArgMatcher.pat pkgPattern, ArgMatcher.pat dashPattern,
            ArgMatcher.pat sQuotedPattern, ArgMatcher.pat dQuotedPattern]) }

/-- `DEFAULT_ALLOWED_COMMANDS` (source lines 20-104). -/
def DEFAULT_ALLOWED_COMMANDS : List AllowedCommand :=
  [{ command := "ls" }, { command := "cat" }, { command := "echo" },
   { command := "pwd" }, { command := "whoami" }, { command := "date" },
   { command := "grep" }, { command := "find" }, { command := "head" },
   { command := "tail" }, { command := "wc" }, { command := "du" },
   { command := "df" }, { command := "which" },
   { command := "mkdir" }, { command := "touch" }, { command := "cp" },
   npmRule, yarnRule, pnpmRule,
   { command := "tsc" },
   gitRule,
   { command := "pod" }, { command := "xcodebuild" }, { command := "fastlane" },
   { command := "curl" }]

example : validateCommand DEFAULT_ALLOWED_COMMANDS "ls" [] = none := rfl
example : validateCommand DEFAULT_ALLOWED_COMMANDS "npm" ["install"] = none := rfl
example : validateCommand DEFAULT_ALLOWED_COMMANDS "npm" ["install", "my-package"] = none := rfl
example : validateCommand DEFAULT_ALLOWED_COMMANDS "npm" ["install", "@my-scope/pkg-name.js"] = none := rfl
example : validateCommand DEFAULT_ALLOWED_COMMANDS "npm" ["run", "build"] = none := rfl
example : validateCommand DEFAULT_ALLOWED_COMMANDS "git" ["status"] = none := rfl
example : validateCommand DEFAULT_ALLOWED_COMMANDS "rm" ["-rf", "/"] =
    some "Command 'rm' is not in the allowed whitelist." := rfl
example : validateCommand DEFAULT_ALLOWED_COMMANDS "npm" ["publish"] =
    some "Argument 'publish' for command 'npm' is explicitly denied." := rfl
example : validateCommand DEFAULT_ALLOWED_COMMANDS "npm" ["whoami"] =
    some "Argument 'whoami' for command 'npm' is explicitly denied." := rfl
example : validateCommand DEFAULT_ALLOWED_COMMANDS "npm" ["eval"] =
    some "Argument 'eval' for command 'npm' is explicitly denied." := rfl
example : validateCommand DEFAULT_ALLOWED_COMMANDS "ls" ["|", "grep"] = none := rfl
example : validateCommand DEFAULT_ALLOWED_COMMANDS "npm" ["install", "|", "bash"] =
    some "Argument '|' for command 'npm' is not allowed." := rfl

/-! ## Process runner bookkeeping (src/index.ts, `spawnAsync`, lines 333-385)

The runner's handlers run on the Node.js event loop, which serialises them;
an invocation is therefore modelled as a list of events (stdout chunk, stderr
chunk, timer firing, error, close) folded over the handler bodies.  A
JavaScript promise settles at most once, so `settle` writes the outcome slot
only when it is still empty. -/

/-- The fixed truncation marker of the data handlers (lines 355 and 364). -/
def TRUNCATION_MARKER : String := "\n...[Output truncated due to size limit]..."

/-- The per-stream accumulator: the `stdout`/`stderr` string and its
`stdoutTruncated`/`stderrTruncated` flag. -/
structure StreamState where
  buf : String
  truncated : Bool
deriving DecidableEq

/-- The stdout/stderr data handler (lines 351-358 resp. 360-367) receiving one
chunk: append while the buffer is below `maxBuffer`, else append the
truncation marker once, else drop the chunk. -/
def onData (maxBuffer : Nat) (st : StreamState) (data : String) : StreamState :=
  if st.buf.length < maxBuffer then { st with buf := st.buf ++ data }
  else if !st.truncated then { buf := st.buf ++ TRUNCATION_MARKER, truncated := true }
  else st

/-- A stream after a sequence of data events, from the empty buffer. -/
def streamRun (maxBuffer : Nat) (chunks : List String) : StreamState :=
  chunks.foldl (onData maxBuffer) ⟨"", false⟩

/-- The one outcome of a `spawnAsync` invocation: `resolve({stdout, stderr})`,
or one of the three rejections (timeout, spawn error, non-zero exit). -/
inductive Outcome where
  | success : String → String → Outcome
  | timeoutFailure : Nat → Outcome
  | spawnFailure : Outcome
  | exitFailure : Int → String → Outcome
deriving DecidableEq

/-- An event delivered to `spawnAsync`'s handlers by the event loop. -/
inductive PEvent where
  | outData : String → PEvent
  | errData : String → PEvent
  | timerFires : PEvent
  | errorEvt : PEvent
  | closeEvt : Int → PEvent
deriving DecidableEq

/-- Does this event run a handler that can settle the promise? -/
def isSettling : PEvent → Bool
  | .outData _ => false
  | .errData _ => false
  | _ => true

/-- The state owned by one `spawnAsync` invocation: both stream accumulators,
the `timedOut` flag, whether the timer is still armed (`clearTimeout` has not
run and the timer has not fired), and the promise's outcome slot. -/
structure RunState where
  out : StreamState
  err : StreamState
  timedOut : Bool
  timerActive : Bool
  outcome : Option Outcome
deriving DecidableEq

/-- Settling a promise: a second resolve/reject is a no-op. -/
def settle (st : RunState) (o : Outcome) : RunState :=
  if st.outcome.isSome then st else { st with outcome := some o }

/-- One event dispatched to the handlers of `spawnAsync` (lines 343-383):
data handlers accumulate; the timer handler sets `timedOut`, disarms itself
and rejects; the error and close handlers run `cleanup()` and settle only
when `timedOut` is not set. -/
def runStep (maxBuffer timeoutMs : Nat) (st : RunState) : PEvent → RunState
  | .outData s => { st with out := onData maxBuffer st.out s }
  | .errData s => { st with err := onData maxBuffer st.err s }
  | .timerFires =>
    if st.timerActive then
      settle { st with timedOut := true, timerActive := false }
        (Outcome.timeoutFailure timeoutMs)
    else st
  | .errorEvt =>
    if st.timedOut then { st with timerActive := false }
    else settle { st with timerActive := false } Outcome.spawnFailure
  | .closeEvt code =>
    if st.timedOut then { st with timerActive := false }
    else if code == 0 then
      settle { st with timerActive := false } (Outcome.success st.out.buf st.err.buf)
    else settle { st with timerActive := false } (Outcome.exitFailure code st.err.buf)

/-- The state at the start of an invocation: empty buffers, timer armed,
promise pending. -/
def runInit : RunState := ⟨⟨"", false⟩, ⟨"", false⟩, false, true, none⟩

/-- An invocation after a sequence of events. -/
def runEvents (maxBuffer timeoutMs : Nat) (events : List PEvent) : RunState :=
  events.foldl (runStep maxBuffer timeoutMs) runInit

example : (runEvents 5 1000 [PEvent.outData "hi", PEvent.closeEvt 0]).outcome =
    some (Outcome.success "hi" "") := rfl
example : (runEvents 5 1000 [PEvent.timerFires, PEvent.closeEvt 0]).outcome =
    some (Outcome.timeoutFailure 1000) := rfl
example : (runEvents 5 1000 [PEvent.closeEvt 2]).outcome =
    some (Outcome.exitFailure 2 "") := rfl
example : streamRun 4 ["aaa", "bbb", "ccc"] =
    ⟨"aaabbb" ++ TRUNCATION_MARKER, true⟩ := rfl

/-! ## Tokenizer lemmas -/

/-- The scanner's quote register is empty or holds a double or single quote. -/
def quoteOK (q : Option Char) : Prop := q = none ∨ q = some '"' ∨ q = some '\''

lemma scanStep_quoteOK {st : ScanState} (c : Char) (h : quoteOK st.quote) :
    quoteOK (scanStep st c).quote := by
  unfold scanStep
  split
  · exact h
  split
  · exact h
  split
  · split
    · exact Or.inl rfl
    · exact h
  · split
    · next hc =>
      rcases Bool.or_eq_true_iff.mp hc with h1 | h1
      · exact Or.inr (Or.inl (by rw [eq_of_beq h1]))
      · exact Or.inr (Or.inr (by rw [eq_of_beq h1]))
    · split
      · split
        · exact h
        · exact h
      · exact h

lemma foldl_scanStep_quoteOK : ∀ (cs : List Char) (st : ScanState),
    quoteOK st.quote → quoteOK (cs.foldl scanStep st).quote := by
  intro cs
  induction cs with
  | nil => intro st h; exact h
  | cons c cs ih => intro st h; exact ih _ (scanStep_quoteOK c h)

lemma scanRun_quoteOK (cs : List Char) : quoteOK (scanRun cs).quote :=
  foldl_scanStep_quoteOK cs scanInit (Or.inl rfl)

lemma scanStep_args_nonempty {st : ScanState} (c : Char)
    (h : ∀ t ∈ st.args, t ≠ "") : ∀ t ∈ (scanStep st c).args, t ≠ "" := by
  unfold scanStep
  split
  · exact h
  split
  · exact h
  split
  · split
    · exact h
    · exact h
  · split
    · exact h
    · split
      · split
        · exact h
        · next hne =>
          intro t ht
          rcases List.mem_append.mp ht with h1 | h1
          · exact h t h1
          · have ht' : t = st.current := by simpa using h1
            subst ht'
            intro hemp
            rw [hemp] at hne
            exact hne rfl
      · exact h

lemma foldl_scanStep_args_nonempty : ∀ (cs : List Char) (st : ScanState),
    (∀ t ∈ st.args, t ≠ "") → ∀ t ∈ (cs.foldl scanStep st).args, t ≠ "" := by
  intro cs
  induction cs with
  | nil => intro st h; exact h
  | cons c cs ih => intro st h; exact ih _ (scanStep_args_nonempty c h)

lemma finishTokens_nonempty {st : ScanState} (h : ∀ t ∈ st.args, t ≠ "") :
    ∀ t ∈ finishTokens st, t ≠ "" := by
  unfold finishTokens
  split
  · exact h
  · next hne =>
    intro t ht
    rcases List.mem_append.mp ht with h1 | h1
    · exact h t h1
    · have ht' : t = st.current := by simpa using h1
      subst ht'
      intro hemp
      rw [hemp] at hne
      exact hne rfl

/-! ## Claims C4, C5, C6, C9: the tokenizer -/

/-- C4: `parseArgs` fails, with a `Syntax error: Unclosed quote` message naming
the offending quote character (always a double or single quote), exactly when
the scan of the input ends with a quote still open; when the scan ends with no
quote open, `parseArgs` returns a token sequence and does not fail. -/
theorem parseArgs_unclosed_quote (input : String) :
    (∀ q, (scanRun input.data).quote = some q →
        (q = '"' ∨ q = '\'') ∧
          parseArgs input =
            Except.error ("Syntax error: Unclosed quote " ++ q.toString)) ∧
    ((scanRun input.data).quote = none →
      ∃ toks, parseArgs input = Except.ok toks) := by
  constructor
  · intro q hq
    constructor
    · rcases scanRun_quoteOK input.data with h | h | h
      · rw [hq] at h; cases h
      · rw [hq] at h; exact Or.inl (by injection h)
      · rw [hq] at h; exact Or.inr (by injection h)
    · unfold parseArgs
      rw [hq]
  · intro hq
    refine ⟨finishTokens (scanRun input.data), ?_⟩
    unfold parseArgs
    rw [hq]

theorem parseArgs_unclosed_quote_spot :
    (('"' = '"' ∨ '"' = '\'') ∧
        parseArgs "echo \"hello" =
          Except.error ("Syntax error: Unclosed quote " ++ '"'.toString)) ∧
      ∃ toks, parseArgs "ls -la" = Except.ok toks :=
  ⟨(parseArgs_unclosed_quote "echo \"hello").1 '"' rfl,
    (parseArgs_unclosed_quote "ls -la").2 rfl⟩

/-- C5: the reference equalities of the tokenizer: `ls -la`, a double-quoted
argument, a single-quoted argument, quote-adjacent concatenation, and the
empty input. -/
theorem parseArgs_reference_cases :
    parseArgs "ls -la" = Except.ok ["ls", "-la"] ∧
    parseArgs "git commit -m \"fix bug\"" =
      Except.ok ["git", "commit", "-m", "fix bug"] ∧
    parseArgs "echo 'hello world'" = Except.ok ["echo", "hello world"] ∧
    parseArgs "a\"b\"c" = Except.ok ["abc"] ∧
    parseArgs "" = Except.ok [] :=
  ⟨rfl, rfl, rfl, rfl, rfl⟩

/-- C6: with the escape flag pending, the scanner appends the next character
literally — whatever it is, so it never opens a quote, closes a quote or
splits a token — and clears the flag; a backslash with no pending escape only
sets the flag; and a trailing unescaped backslash is a no-op: appending it to
any input whose scan ends with no pending escape leaves `parseArgs` unchanged. -/
theorem parseArgs_escape_global :
    (∀ (st : ScanState) (c : Char), st.escape = true →
        scanStep st c = { st with current := st.current.push c, escape := false }) ∧
    (∀ st : ScanState, st.escape = false →
        scanStep st '\\' = { st with escape := true }) ∧
    (∀ s : String, (scanRun s.data).escape = false →
        parseArgs (s.push '\\') = parseArgs s) := by
  refine ⟨?_, ?_, ?_⟩
  · intro st c h
    unfold scanStep
    rw [if_pos h]
  · intro st h
    simp [scanStep, h]
  · intro s h
    have h1 : scanRun (s.push '\\').data = { scanRun s.data with escape := true } := by
      show scanRun (s.data ++ ['\\']) = _
      unfold scanRun
      rw [List.foldl_append]
      show scanStep (scanRun s.data) '\\' = _
      simp [scanStep, scanRun, h]
      exact h
    unfold parseArgs
    rw [h1]
    rfl

theorem parseArgs_escape_global_spot :
    scanStep ⟨[], "x", none, true⟩ '"' = ⟨[], "x".push '"', none, false⟩ ∧
    scanStep ⟨[], "x", none, false⟩ '\\' = ⟨[], "x", none, true⟩ ∧
    parseArgs ("echo hi".push '\\') = parseArgs "echo hi" :=
  ⟨parseArgs_escape_global.1 ⟨[], "x", none, true⟩ '"' rfl,
    parseArgs_escape_global.2.1 ⟨[], "x", none, false⟩ rfl,
    parseArgs_escape_global.2.2 "echo hi" rfl⟩

/-- C9: every token `parseArgs` returns is non-empty; in particular an
explicitly quoted empty string contributes no token, so
`parseArgs "echo \"\"" = ok ["echo"]`. -/
theorem parseArgs_tokens_nonempty :
    (∀ (input : String) (toks : List String),
        parseArgs input = Except.ok toks → ∀ t ∈ toks, t ≠ "") ∧
      parseArgs "echo \"\"" = Except.ok ["echo"] := by
  refine ⟨?_, rfl⟩
  intro input toks hok
  have hargs : ∀ t ∈ (scanRun input.data).args, t ≠ "" :=
    foldl_scanStep_args_nonempty input.data scanInit (by intro t ht; cases ht)
  unfold parseArgs at hok
  cases hq : (scanRun input.data).quote with
  | some q => rw [hq] at hok; simp at hok
  | none =>
    rw [hq] at hok
    simp only [Except.ok.injEq] at hok
    rw [← hok]
    exact finishTokens_nonempty hargs

theorem parseArgs_tokens_nonempty_spot :
    parseArgs "a b" = Except.ok ["a", "b"] ∧ ("a" : String) ≠ "" :=
  ⟨rfl, parseArgs_tokens_nonempty.1 "a b" ["a", "b"] rfl "a" (by simp)⟩

/-! ## Validator lemmas -/

lemma checkArgs_append_ok (cfg : AllowedCommand) (baseCommand : String) :
    ∀ (pre l : List String), (∀ a ∈ pre, checkArg cfg baseCommand a = none) →
      checkArgs cfg baseCommand (pre ++ l) = checkArgs cfg baseCommand l := by
  intro pre
  induction pre with
  | nil => intro l _; rfl
  | cons a as ih =>
    intro l hpre
    have ha : checkArg cfg baseCommand a = none := hpre a (by simp)
    have hstep : checkArgs cfg baseCommand ((a :: as) ++ l) =
        match checkArg cfg baseCommand a with
        | some e => some e
        | none => checkArgs cfg baseCommand (as ++ l) := rfl
    rw [hstep, ha]
    exact ih l (fun b hb => hpre b (by simp [hb]))

/-! ## Claims C1, C2, C10: the validator -/

/-- C2: an unknown program is rejected with a message naming the program, and
a rule with neither allowed nor denied matchers accepts every argument list. -/
theorem validateCommand_lookup (cmds : List AllowedCommand) (baseCommand : String)
    (args : List String) :
    (cmds.find? (fun c => c.command == baseCommand) = none →
        validateCommand cmds baseCommand args =
          some ("Command '" ++ baseCommand ++ "' is not in the allowed whitelist.")) ∧
    (∀ cfg, cmds.find? (fun c => c.command == baseCommand) = some cfg →
        cfg.allowedArgs = none → cfg.deniedArgs = none →
        validateCommand cmds baseCommand args = none) := by
  constructor
  · intro h
    unfold validateCommand
    rw [h]
  · intro cfg h ha hd
    unfold validateCommand
    rw [h]
    simp [ha, hd]

theorem validateCommand_lookup_spot :
    validateCommand DEFAULT_ALLOWED_COMMANDS "rm" ["-rf", "/"] =
        some ("Command '" ++ "rm" ++ "' is not in the allowed whitelist.") ∧
      validateCommand DEFAULT_ALLOWED_COMMANDS "ls" ["-la", "x; rm"] = none :=
  ⟨(validateCommand_lookup DEFAULT_ALLOWED_COMMANDS "rm" ["-rf", "/"]).1 rfl,
    (validateCommand_lookup DEFAULT_ALLOWED_COMMANDS "ls" ["-la", "x; rm"]).2
      { command := "ls" } rfl rfl rfl⟩

/-- C10: a program that has a rule always accepts the empty argument list,
whatever the rule's matchers are. -/
theorem validateCommand_empty_args (cmds : List AllowedCommand) (baseCommand : String)
    (cfg : AllowedCommand)
    (hfind : cmds.find? (fun c => c.command == baseCommand) = some cfg) :
    validateCommand cmds baseCommand [] = none := by
  unfold validateCommand
  rw [hfind]
  show (if (cfg.allowedArgs.isSome || cfg.deniedArgs.isSome) = true
      then checkArgs cfg baseCommand [] else none) = none
  split
  · rfl
  · rfl

theorem validateCommand_empty_args_spot :
    validateCommand DEFAULT_ALLOWED_COMMANDS "npm" [] = none :=
  validateCommand_empty_args DEFAULT_ALLOWED_COMMANDS "npm" npmRule rfl

/-- C1 (amended): when every argument before position `k` passes its checks,
and the argument at position `k` matches a denied matcher, validation rejects
with the explicitly-denied message naming that argument and the program —
whether or not that argument also matches an allowed matcher, and whatever
arguments follow (they are not examined). -/
theorem validateCommand_deny_wins (cmds : List AllowedCommand) (baseCommand : String)
    (cfg : AllowedCommand) (denied : List ArgMatcher) (pre rest : List String)
    (arg : String)
    (hfind : cmds.find? (fun c => c.command == baseCommand) = some cfg)
    (hdenied : cfg.deniedArgs = some denied)
    (hpre : ∀ a ∈ pre, checkArg cfg baseCommand a = none)
    (hden : denied.any (fun m => matcherTest m arg) = true) :
    validateCommand cmds baseCommand (pre ++ arg :: rest) =
      some ("Argument '" ++ arg ++ "' for command '" ++ baseCommand ++
        "' is explicitly denied.") := by
  have hc : checkArg cfg baseCommand arg =
      some ("Argument '" ++ arg ++ "' for command '" ++ baseCommand ++
        "' is explicitly denied.") := by
    unfold checkArg
    rw [hdenied]
    simp [hden]
  unfold validateCommand
  rw [hfind]
  show (if (cfg.allowedArgs.isSome || cfg.deniedArgs.isSome) = true
      then checkArgs cfg baseCommand (pre ++ arg :: rest) else none) = _
  rw [if_pos (by simp [hdenied])]
  rw [checkArgs_append_ok cfg baseCommand pre (arg :: rest) hpre]
  have hstep : checkArgs cfg baseCommand (arg :: rest) =
      match checkArg cfg baseCommand arg with
      | some e => some e
      | none => checkArgs cfg baseCommand rest := rfl
  rw [hstep, hc]

theorem validateCommand_deny_wins_spot :
    validateCommand DEFAULT_ALLOWED_COMMANDS "npm" (["install"] ++ "publish" :: ["run"]) =
      some ("Argument '" ++ "publish" ++ "' for command '" ++ "npm" ++
        "' is explicitly denied.") :=
  validateCommand_deny_wins DEFAULT_ALLOWED_COMMANDS "npm" npmRule
    (npmRule.deniedArgs.getD []) ["install"] ["run"] "publish" rfl rfl
    (by decide) rfl

/-- C1 counterexample: for the default npm rule and arguments ["|", "publish"],
the later argument "publish" matches a denied matcher, yet validation rejects
the earlier argument "|" with the not-allowed reason — it does not report the
explicitly-denied reason for "publish". -/
theorem validateCommand_denied_later_arg_cex :
    (npmRule.deniedArgs.getD []).any (fun m => matcherTest m "publish") = true ∧
    validateCommand DEFAULT_ALLOWED_COMMANDS "npm" ["|", "publish"] =
      some "Argument '|' for command 'npm' is not allowed." ∧
    validateCommand DEFAULT_ALLOWED_COMMANDS "npm" ["|", "publish"] ≠
      some "Argument 'publish' for command 'npm' is explicitly denied." := by
  refine ⟨rfl, rfl, ?_⟩
  intro hcontra
  rw [(rfl : validateCommand DEFAULT_ALLOWED_COMMANDS "npm" ["|", "publish"] =
      some "Argument '|' for command 'npm' is not allowed.")] at hcontra
  exact absurd hcontra (by decide)

/-! ## Claim C3: the matching policy of Pattern matchers -/

/-- Modelled from the spec for comparison with the source's `matcherTest`: the
claim's policy under which a matcher "counts as matching only when the entire
argument matches the pattern (full-pattern match)"; literals keep exact
equality. -/
def specFullMatch (m : ArgMatcher) (arg : String) : Bool :=
  match m with
  | .lit s => arg == s
  | .pat p => regexFull p.core arg.data

/-- C3 counterexample: the start-anchored dash pattern tests true on "-l a"
though the entire argument does not match it; the default git rule therefore
accepts "-l a" although none of its matchers full-matches that argument. -/
theorem jsTest_partial_match_cex :
    jsTest dashPattern "-l a" = true ∧
    regexFull dashPattern.core "-l a".data = false ∧
    validateCommand DEFAULT_ALLOWED_COMMANDS "git" ["-l a"] = none ∧
    (gitRule.allowedArgs.getD []).all (fun m => !(specFullMatch m "-l a")) = true :=
  ⟨rfl, rfl, rfl, rfl⟩

lemma regexFull_nil (r : Regex) : regexFull r [] = nullable r := rfl

lemma regexFull_cons (r : Regex) (c : Char) (cs : List Char) :
    regexFull r (c :: cs) = regexFull (deriv r c) cs := rfl

lemma prefMatch_iff (r : Regex) (cs : List Char) :
    prefMatch r cs = true ↔ ∃ m rest, cs = m ++ rest ∧ regexFull r m = true := by
  induction cs generalizing r with
  | nil =>
    constructor
    · intro h
      exact ⟨[], [], rfl, h⟩
    · rintro ⟨m, rest, hm, hf⟩
      rcases List.append_eq_nil.mp hm.symm with ⟨hm1, _⟩
      subst hm1
      exact hf
  | cons c cs ih =>
    constructor
    · intro h
      rcases Bool.or_eq_true_iff.mp h with h1 | h1
      · exact ⟨[], c :: cs, rfl, h1⟩
      · obtain ⟨m, rest, hm, hf⟩ := (ih (deriv r c)).mp h1
        exact ⟨c :: m, rest, by rw [hm, List.cons_append], hf⟩
    · rintro ⟨m, rest, hm, hf⟩
      show (nullable r || prefMatch (deriv r c) cs) = true
      cases m with
      | nil =>
        rw [regexFull_nil] at hf
        rw [hf, Bool.true_or]
      | cons a as =>
        injection hm with h1 h2
        subst h1
        rw [regexFull_cons] at hf
        rw [(ih (deriv r c)).mpr ⟨as, rest, h2, hf⟩, Bool.or_true]

lemma suffMatch_iff (r : Regex) (cs : List Char) :
    suffMatch r cs = true ↔ ∃ l m, cs = l ++ m ∧ regexFull r m = true := by
  induction cs with
  | nil =>
    constructor
    · intro h
      exact ⟨[], [], rfl, h⟩
    · rintro ⟨l, m, hm, hf⟩
      rcases List.append_eq_nil.mp hm.symm with ⟨hl, hm1⟩
      subst hm1
      exact hf
  | cons c cs ih =>
    constructor
    · intro h
      rcases Bool.or_eq_true_iff.mp h with h1 | h1
      · exact ⟨[], c :: cs, rfl, h1⟩
      · obtain ⟨l, m, hm, hf⟩ := ih.mp h1
        exact ⟨c :: l, m, by rw [hm, List.cons_append], hf⟩
    · rintro ⟨l, m, hm, hf⟩
      show (regexFull r (c :: cs) || suffMatch r cs) = true
      cases l with
      | nil =>
        have hm' : m = c :: cs := by simpa using hm.symm
        subst hm'
        rw [hf, Bool.true_or]
      | cons a as =>
        injection hm with h1 h2
        rw [ih.mpr ⟨as, m, h2, hf⟩, Bool.or_true]

lemma searchMatch_iff (r : Regex) (cs : List Char) :
    searchMatch r cs = true ↔
      ∃ l m rest, cs = l ++ m ++ rest ∧ regexFull r m = true := by
  induction cs with
  | nil =>
    constructor
    · intro h
      exact ⟨[], [], [], rfl, h⟩
    · rintro ⟨l, m, rest, hm, hf⟩
      rcases List.append_eq_nil.mp hm.symm with ⟨hl, hrest⟩
      rcases List.append_eq_nil.mp hl with ⟨_, hm1⟩
      subst hm1
      exact hf
  | cons c cs ih =>
    constructor
    · intro h
      rcases Bool.or_eq_true_iff.mp h with h1 | h1
      · obtain ⟨m, rest, hm, hf⟩ := (prefMatch_iff r (c :: cs)).mp h1
        exact ⟨[], m, rest, by simpa using hm, hf⟩
      · obtain ⟨l, m, rest, hm, hf⟩ := ih.mp h1
        exact ⟨c :: l, m, rest, by rw [hm]; rfl, hf⟩
    · rintro ⟨l, m, rest, hm, hf⟩
      show (prefMatch r (c :: cs) || searchMatch r cs) = true
      cases l with
      | nil =>
        have hm' : c :: cs = m ++ rest := by simpa using hm
        rw [(prefMatch_iff r (c :: cs)).mpr ⟨m, rest, hm', hf⟩, Bool.true_or]
      | cons a as =>
        injection hm with h1 h2
        rw [ih.mpr ⟨as, m, rest, h2, hf⟩, Bool.or_true]

/-- C3 (amended): a Pattern matcher counts as matching when the pattern
matches some contiguous segment of the argument — JavaScript `test` search
semantics — with the pattern's own anchors forcing that segment to be a
prefix, a suffix, or the whole argument; full-argument match is not required
of an unanchored or singly-anchored pattern. -/
theorem jsTest_matches_substring (p : JSRegex) (s : String) :
    jsTest p s = true ↔
      ∃ l m r, s.data = l ++ m ++ r ∧
        (p.anchorStart = true → l = []) ∧
        (p.anchorEnd = true → r = []) ∧
        regexFull p.core m = true := by
  obtain ⟨as, ae, core⟩ := p
  cases as <;> cases ae
  · show searchMatch core s.data = true ↔ _
    rw [searchMatch_iff]
    constructor
    · rintro ⟨l, m, rest, hm, hf⟩
      refine ⟨l, m, rest, hm, ?_, ?_, hf⟩
      · intro h; cases h
      · intro h; cases h
    · rintro ⟨l, m, rest, hm, _, _, hf⟩
      exact ⟨l, m, rest, hm, hf⟩
  · show suffMatch core s.data = true ↔ _
    rw [suffMatch_iff]
    constructor
    · rintro ⟨l, m, hm, hf⟩
      refine ⟨l, m, [], by simpa using hm, ?_, fun _ => rfl, hf⟩
      intro h; cases h
    · rintro ⟨l, m, rest, hm, _, hrest, hf⟩
      rw [hrest rfl, List.append_nil] at hm
      exact ⟨l, m, hm, hf⟩
  · show prefMatch core s.data = true ↔ _
    rw [prefMatch_iff]
    constructor
    · rintro ⟨m, rest, hm, hf⟩
      refine ⟨[], m, rest, by simpa using hm, fun _ => rfl, ?_, hf⟩
      intro h; cases h
    · rintro ⟨l, m, rest, hm, hl, _, hf⟩
      rw [hl rfl] at hm
      exact ⟨m, rest, by simpa using hm, hf⟩
  · show regexFull core s.data = true ↔ _
    constructor
    · intro h
      exact ⟨[], s.data, [], by simp, fun _ => rfl, fun _ => rfl, h⟩
    · rintro ⟨l, m, rest, hm, hl, hrest, hf⟩
      rw [hl rfl, hrest rfl, List.append_nil] at hm
      have : s.data = m := by simpa using hm
      rw [this]
      exact hf

/-! ## Claim C7: stream capping -/

lemma onData_below_cap {maxBuffer : Nat} {st : StreamState}
    (h : st.buf.length < maxBuffer) (data : String) :
    onData maxBuffer st data = { st with buf := st.buf ++ data } := by
  unfold onData
  rw [if_pos h]

lemma onData_at_cap {maxBuffer : Nat} {st : StreamState}
    (ht : st.truncated = false) (h : maxBuffer ≤ st.buf.length) (data : String) :
    onData maxBuffer st data = ⟨st.buf ++ TRUNCATION_MARKER, true⟩ := by
  unfold onData
  rw [if_neg (Nat.not_lt.mpr h), ht]
  rfl

lemma onData_frozen {maxBuffer : Nat} {st : StreamState}
    (ht : st.truncated = true) (h : maxBuffer ≤ st.buf.length) (data : String) :
    onData maxBuffer st data = st := by
  unfold onData
  rw [if_neg (Nat.not_lt.mpr h), ht]
  rfl

lemma foldl_onData_trunc_le (maxBuffer : Nat) : ∀ (chunks : List String) (st : StreamState),
    (st.truncated = true → maxBuffer ≤ st.buf.length) →
    ((chunks.foldl (onData maxBuffer) st).truncated = true →
      maxBuffer ≤ (chunks.foldl (onData maxBuffer) st).buf.length) := by
  intro chunks
  induction chunks with
  | nil => intro st h; exact h
  | cons d ds ih =>
    intro st h
    apply ih
    unfold onData
    split
    · next hlt =>
      intro htr
      have := h htr
      omega
    · next hge =>
      split
      · intro _
        rw [String.length_append]
        have := Nat.not_lt.mp hge
        omega
      · intro htr
        exact Nat.not_lt.mp hge

lemma foldl_onData_frozen (maxBuffer : Nat) : ∀ (chunks : List String) (st : StreamState),
    st.truncated = true → maxBuffer ≤ st.buf.length →
    chunks.foldl (onData maxBuffer) st = st := by
  intro chunks
  induction chunks with
  | nil => intro st _ _; rfl
  | cons d ds ih =>
    intro st ht h
    show ds.foldl (onData maxBuffer) (onData maxBuffer st d) = st
    rw [onData_frozen ht h]
    exact ih st ht h

/-- C7 counterexample: with cap 4 a single ten-byte chunk is accepted whole,
so the accumulated stream is not bounded by the cap — the handler checks the
length before appending, not after. -/
theorem stream_cap_overshoot_cex :
    (streamRun 4 ["aaaaaaaaaa"]).buf.length = 10 ∧ ¬(10 ≤ 4) :=
  ⟨rfl, by decide⟩

/-- C7 (amended): each stream accepts a chunk, appended whole, only while its
length is strictly below the cap (so the buffer can exceed the cap by at most
the final accepted chunk); once the length has reached the cap, the next chunk
is dropped and the fixed truncation marker is appended instead, marking the
stream truncated; and a truncated stream never changes again, under any
further chunks — the transition is irreversible and the marker appears once. -/
theorem stream_truncation_monotone (maxBuffer : Nat) (chunks : List String) :
    ((streamRun maxBuffer chunks).truncated = true →
        ∀ more : List String,
          List.foldl (onData maxBuffer) (streamRun maxBuffer chunks) more =
            streamRun maxBuffer chunks) ∧
    (∀ st : StreamState, st.buf.length < maxBuffer → ∀ data,
        onData maxBuffer st data = { st with buf := st.buf ++ data }) ∧
    (∀ st : StreamState, st.truncated = false → maxBuffer ≤ st.buf.length →
        ∀ data, onData maxBuffer st data = ⟨st.buf ++ TRUNCATION_MARKER, true⟩) ∧
    (∀ st : StreamState, st.truncated = true → maxBuffer ≤ st.buf.length →
        ∀ data, onData maxBuffer st data = st) := by
  refine ⟨?_, fun st h data => onData_below_cap h data,
    fun st ht h data => onData_at_cap ht h data,
    fun st ht h data => onData_frozen ht h data⟩
  intro htr more
  have hlen : maxBuffer ≤ (streamRun maxBuffer chunks).buf.length :=
    foldl_onData_trunc_le maxBuffer chunks ⟨"", false⟩ (by intro h; cases h) htr
  exact foldl_onData_frozen maxBuffer more _ htr hlen

theorem stream_truncation_monotone_spot :
    List.foldl (onData 4) (streamRun 4 ["aaaaa", "b"]) ["c", "dd"] =
        streamRun 4 ["aaaaa", "b"] ∧
    onData 4 ⟨"ab", false⟩ "cd" = ⟨"ab" ++ "cd", false⟩ ∧
    onData 4 ⟨"abcde", false⟩ "fg" = ⟨"abcde" ++ TRUNCATION_MARKER, true⟩ ∧
    onData 4 ⟨"abcde", true⟩ "fg" = ⟨"abcde", true⟩ :=
  ⟨(stream_truncation_monotone 4 ["aaaaa", "b"]).1 rfl ["c", "dd"],
    (stream_truncation_monotone 4 []).2.1 ⟨"ab", false⟩ (by decide) "cd",
    (stream_truncation_monotone 4 []).2.2.1 ⟨"abcde", false⟩ rfl (by decide) "fg",
    (stream_truncation_monotone 4 []).2.2.2 ⟨"abcde", true⟩ rfl (by decide) "fg"⟩

/-! ## Claim C8: one outcome per invocation, timeout wins -/

/-- Invariant of a `spawnAsync` invocation's state: the promise is settled
exactly when the timer is disarmed, and once `timedOut` is set the settled
outcome is the timeout rejection. -/
@[reducible] def runInv (timeoutMs : Nat) (st : RunState) : Prop :=
  (st.outcome.isSome = true → st.timerActive = false) ∧
  (st.timerActive = false → st.outcome.isSome = true) ∧
  (st.timedOut = true → st.outcome = some (Outcome.timeoutFailure timeoutMs))

lemma runInv_init (timeoutMs : Nat) : runInv timeoutMs runInit := by
  refine ⟨fun h => ?_, fun h => ?_, fun h => ?_⟩ <;> exact absurd h (by decide)

lemma settle_isSome (st : RunState) (o : Outcome) :
    ((settle st o).outcome).isSome = true := by
  unfold settle
  split
  · next h => exact h
  · rfl

lemma settle_of_some {st : RunState} {o' : Outcome} (h : st.outcome = some o')
    (o : Outcome) : settle st o = st := by
  unfold settle
  rw [if_pos (by rw [h]; rfl)]

lemma settle_of_none {st : RunState} (h : st.outcome = none) (o : Outcome) :
    settle st o = { st with outcome := some o } := by
  unfold settle
  rw [if_neg (by rw [h]; exact Bool.false_ne_true)]

lemma settle_inv_notTimedOut {timeoutMs : Nat} {st : RunState}
    (htimer : st.timerActive = false) (htd : st.timedOut = false) (o : Outcome) :
    runInv timeoutMs (settle st o) := by
  unfold settle
  split
  · next h =>
    refine ⟨fun _ => htimer, fun _ => h, fun h' => ?_⟩
    rw [htd] at h'
    exact absurd h' Bool.false_ne_true
  · next h =>
    refine ⟨fun _ => htimer, fun _ => rfl, fun h' => ?_⟩
    have h'' : st.timedOut = true := h'
    rw [htd] at h''
    exact absurd h'' Bool.false_ne_true

lemma runStep_inv {maxBuffer timeoutMs : Nat} {st : RunState}
    (h : runInv timeoutMs st) (e : PEvent) :
    runInv timeoutMs (runStep maxBuffer timeoutMs st e) := by
  obtain ⟨h1, h2, h3⟩ := h
  cases e with
  | outData s => exact ⟨h1, h2, h3⟩
  | errData s => exact ⟨h1, h2, h3⟩
  | timerFires =>
    show runInv timeoutMs
      (if st.timerActive then
        settle { st with timedOut := true, timerActive := false }
          (Outcome.timeoutFailure timeoutMs)
      else st)
    cases hta : st.timerActive with
    | false => exact ⟨h1, h2, h3⟩
    | true =>
      have hout : st.outcome = none := by
        cases ho : st.outcome with
        | none => rfl
        | some o =>
          have hfalse := h1 (by rw [ho]; rfl)
          rw [hfalse] at hta
          exact absurd hta Bool.false_ne_true
      show runInv timeoutMs
        (settle (⟨st.out, st.err, true, false, st.outcome⟩ : RunState)
          (Outcome.timeoutFailure timeoutMs))
      rw [settle_of_none
        (show ((⟨st.out, st.err, true, false, st.outcome⟩ : RunState)).outcome = none from hout)]
      exact ⟨fun _ => rfl, fun _ => rfl, fun _ => rfl⟩
  | errorEvt =>
    show runInv timeoutMs
      (if st.timedOut then { st with timerActive := false }
      else settle { st with timerActive := false } Outcome.spawnFailure)
    cases hto : st.timedOut with
    | true =>
      refine ⟨fun _ => rfl, fun _ => ?_, fun _ => h3 hto⟩
      rw [h3 hto]
      rfl
    | false =>
      show runInv timeoutMs
        (settle (⟨st.out, st.err, false, false, st.outcome⟩ : RunState) Outcome.spawnFailure)
      exact settle_inv_notTimedOut rfl rfl _
  | closeEvt code =>
    show runInv timeoutMs
      (if st.timedOut then { st with timerActive := false }
      else if code == 0 then
        settle { st with timerActive := false } (Outcome.success st.out.buf st.err.buf)
      else settle { st with timerActive := false } (Outcome.exitFailure code st.err.buf))
    cases hto : st.timedOut with
    | true =>
      refine ⟨fun _ => rfl, fun _ => ?_, fun _ => h3 hto⟩
      rw [h3 hto]
      rfl
    | false =>
      cases hc : code == 0 with
      | true =>
        show runInv timeoutMs
          (settle (⟨st.out, st.err, false, false, st.outcome⟩ : RunState)
            (Outcome.success st.out.buf st.err.buf))
        exact settle_inv_notTimedOut rfl rfl _
      | false =>
        show runInv timeoutMs
          (settle (⟨st.out, st.err, false, false, st.outcome⟩ : RunState)
            (Outcome.exitFailure code st.err.buf))
        exact settle_inv_notTimedOut rfl rfl _

lemma runStep_persist {maxBuffer timeoutMs : Nat} {st : RunState} {o : Outcome}
    (hinv : runInv timeoutMs st) (ho : st.outcome = some o) (e : PEvent) :
    (runStep maxBuffer timeoutMs st e).outcome = some o := by
  obtain ⟨h1, h2, h3⟩ := hinv
  cases e with
  | outData s => exact ho
  | errData s => exact ho
  | timerFires =>
    have hta : st.timerActive = false := h1 (by rw [ho]; rfl)
    show (if st.timerActive then
        settle { st with timedOut := true, timerActive := false }
          (Outcome.timeoutFailure timeoutMs)
      else st).outcome = some o
    rw [hta]
    exact ho
  | errorEvt =>
    show (if st.timedOut then { st with timerActive := false }
      else settle { st with timerActive := false } Outcome.spawnFailure).outcome = some o
    cases hto : st.timedOut with
    | true => exact ho
    | false =>
      show (settle (⟨st.out, st.err, false, false, st.outcome⟩ : RunState)
        Outcome.spawnFailure).outcome = some o
      rw [settle_of_some
        (show ((⟨st.out, st.err, false, false, st.outcome⟩ : RunState)).outcome = some o from ho)]
      exact ho
  | closeEvt code =>
    show (if st.timedOut then { st with timerActive := false }
      else if code == 0 then
        settle { st with timerActive := false } (Outcome.success st.out.buf st.err.buf)
      else settle { st with timerActive := false }
        (Outcome.exitFailure code st.err.buf)).outcome = some o
    cases hto : st.timedOut with
    | true => exact ho
    | false =>
      cases hc : code == 0 with
      | true =>
        show (settle (⟨st.out, st.err, false, false, st.outcome⟩ : RunState)
          (Outcome.success st.out.buf st.err.buf)).outcome = some o
        rw [settle_of_some
          (show ((⟨st.out, st.err, false, false, st.outcome⟩ : RunState)).outcome = some o from ho)]
        exact ho
      | false =>
        show (settle (⟨st.out, st.err, false, false, st.outcome⟩ : RunState)
          (Outcome.exitFailure code st.err.buf)).outcome = some o
        rw [settle_of_some
          (show ((⟨st.out, st.err, false, false, st.outcome⟩ : RunState)).outcome = some o from ho)]
        exact ho

lemma runStep_settles {maxBuffer timeoutMs : Nat} {st : RunState}
    (hinv : runInv timeoutMs st) (e : PEvent) (he : isSettling e = true) :
    ((runStep maxBuffer timeoutMs st e).outcome).isSome = true := by
  obtain ⟨h1, h2, h3⟩ := hinv
  cases e with
  | outData s => cases he
  | errData s => cases he
  | timerFires =>
    show ((if st.timerActive then
        settle { st with timedOut := true, timerActive := false }
          (Outcome.timeoutFailure timeoutMs)
      else st).outcome).isSome = true
    cases hta : st.timerActive with
    | true =>
      show ((settle (⟨st.out, st.err, true, false, st.outcome⟩ : RunState)
        (Outcome.timeoutFailure timeoutMs)).outcome).isSome = true
      exact settle_isSome _ _
    | false => exact h2 hta
  | errorEvt =>
    show ((if st.timedOut then { st with timerActive := false }
      else settle { st with timerActive := false } Outcome.spawnFailure).outcome).isSome = true
    cases hto : st.timedOut with
    | true =>
      rw [h3 hto]
      rfl
    | false =>
      show ((settle (⟨st.out, st.err, false, false, st.outcome⟩ : RunState)
        Outcome.spawnFailure).outcome).isSome = true
      exact settle_isSome _ _
  | closeEvt code =>
    show ((if st.timedOut then { st with timerActive := false }
      else if code == 0 then
        settle { st with timerActive := false } (Outcome.success st.out.buf st.err.buf)
      else settle { st with timerActive := false }
        (Outcome.exitFailure code st.err.buf)).outcome).isSome = true
    cases hto : st.timedOut with
    | true =>
      rw [h3 hto]
      rfl
    | false =>
      cases hc : code == 0 with
      | true =>
        show ((settle (⟨st.out, st.err, false, false, st.outcome⟩ : RunState)
          (Outcome.success st.out.buf st.err.buf)).outcome).isSome = true
        exact settle_isSome _ _
      | false =>
        show ((settle (⟨st.out, st.err, false, false, st.outcome⟩ : RunState)
          (Outcome.exitFailure code st.err.buf)).outcome).isSome = true
        exact settle_isSome _ _

lemma runFold_inv (maxBuffer timeoutMs : Nat) : ∀ (events : List PEvent) (st : RunState),
    runInv timeoutMs st →
    runInv timeoutMs (events.foldl (runStep maxBuffer timeoutMs) st) := by
  intro events
  induction events with
  | nil => intro st h; exact h
  | cons e es ih => intro st h; exact ih _ (runStep_inv h e)

lemma runFold_persist (maxBuffer timeoutMs : Nat) :
    ∀ (events : List PEvent) (st : RunState) (o : Outcome), runInv timeoutMs st →
    st.outcome = some o →
    ((events.foldl (runStep maxBuffer timeoutMs) st).outcome) = some o := by
  intro events
  induction events with
  | nil => intro st o _ ho; exact ho
  | cons e es ih =>
    intro st o hinv ho
    exact ih _ o (runStep_inv hinv e) (runStep_persist hinv ho e)

lemma runFold_settles (maxBuffer timeoutMs : Nat) :
    ∀ (events : List PEvent) (st : RunState), runInv timeoutMs st →
    (∃ e ∈ events, isSettling e = true) →
    (((events.foldl (runStep maxBuffer timeoutMs) st).outcome)).isSome = true := by
  intro events
  induction events with
  | nil =>
    rintro st _ ⟨e, he, _⟩
    cases he
  | cons e es ih =>
    rintro st hinv ⟨f, hf, hset⟩
    show (((es.foldl (runStep maxBuffer timeoutMs) (runStep maxBuffer timeoutMs st e)).outcome)).isSome = true
    rcases List.mem_cons.mp hf with hfe | hf'
    · subst hfe
      have hsome := @runStep_settles maxBuffer timeoutMs st hinv f hset
      obtain ⟨o, ho⟩ := Option.isSome_iff_exists.mp hsome
      rw [runFold_persist maxBuffer timeoutMs es _ o (runStep_inv hinv f) ho]
      rfl
    · exact ih _ (runStep_inv hinv e) ⟨f, hf', hset⟩

/-- C8: an invocation settles at most once — a settled outcome survives any
further events unchanged; it settles at least once as soon as a settling
event (timer, error, close) has been delivered; and once `timedOut` is set
the outcome is the timeout rejection, which no later exit or error event can
replace, so no output is ever reported through the success outcome after a
timeout. -/
theorem spawnAsync_single_outcome (maxBuffer timeoutMs : Nat)
    (events more : List PEvent) :
    (∀ o, (runEvents maxBuffer timeoutMs events).outcome = some o →
        (runEvents maxBuffer timeoutMs (events ++ more)).outcome = some o) ∧
    ((∃ e ∈ events, isSettling e = true) →
        ((runEvents maxBuffer timeoutMs events).outcome).isSome = true) ∧
    ((runEvents maxBuffer timeoutMs events).timedOut = true →
        (runEvents maxBuffer timeoutMs (events ++ more)).outcome =
            some (Outcome.timeoutFailure timeoutMs) ∧
          ∀ stdout stderr,
            (runEvents maxBuffer timeoutMs (events ++ more)).outcome ≠
              some (Outcome.success stdout stderr)) := by
  have hinv : runInv timeoutMs (runEvents maxBuffer timeoutMs events) :=
    runFold_inv maxBuffer timeoutMs events runInit (runInv_init timeoutMs)
  have happ : runEvents maxBuffer timeoutMs (events ++ more) =
      more.foldl (runStep maxBuffer timeoutMs) (runEvents maxBuffer timeoutMs events) := by
    unfold runEvents
    rw [List.foldl_append]
  refine ⟨?_, ?_, ?_⟩
  · intro o ho
    rw [happ]
    exact runFold_persist maxBuffer timeoutMs more _ o hinv ho
  · intro hset
    exact runFold_settles maxBuffer timeoutMs events runInit (runInv_init timeoutMs) hset
  · intro htd
    have hto : (runEvents maxBuffer timeoutMs events).outcome =
        some (Outcome.timeoutFailure timeoutMs) := hinv.2.2 htd
    have hres : (runEvents maxBuffer timeoutMs (events ++ more)).outcome =
        some (Outcome.timeoutFailure timeoutMs) := by
      rw [happ]
      exact runFold_persist maxBuffer timeoutMs more _ _ hinv hto
    refine ⟨hres, ?_⟩
    intro stdout stderr heq
    rw [hres] at heq
    simp at heq

theorem spawnAsync_single_outcome_spot :
    (runEvents 8 99 ([PEvent.outData "x", PEvent.timerFires] ++ [PEvent.closeEvt 0])).outcome =
        some (Outcome.timeoutFailure 99) ∧
    ((runEvents 8 99 [PEvent.outData "x", PEvent.timerFires]).outcome).isSome = true ∧
    (runEvents 8 99 ([PEvent.outData "x", PEvent.timerFires] ++ [PEvent.closeEvt 0])).outcome ≠
        some (Outcome.success "x" "") :=
  ⟨((spawnAsync_single_outcome 8 99 [PEvent.outData "x", PEvent.timerFires]
      [PEvent.closeEvt 0]).2.2 rfl).1,
    (spawnAsync_single_outcome 8 99 [PEvent.outData "x", PEvent.timerFires] []).2.1
      ⟨PEvent.timerFires, by simp, rfl⟩,
    ((spawnAsync_single_outcome 8 99 [PEvent.outData "x", PEvent.timerFires]
      [PEvent.closeEvt 0]).2.2 rfl).2 "x" ""⟩

end SafeCmd
